import Mathlib

/-!
Verification of the sysnet training loop (sysnet/sources/train.py).

Shallow embedding conventions:
* Python floats are idealized as exact rationals (ℚ); float comparisons are
  exact, as in the source.
* A torch tensor holding a parameter matrix is flattened to a `List ℚ`;
  `torch.norm(W, p=1)` is the sum of absolute values and `torch.norm(W, 2)`
  is a square root of the sum of squares (the floating square root is
  idealized by the rational square root `Rat.sqrt`; the claims only ever
  use its non-negativity).
* The model architecture (forward passes), the optimizer update rule
  (`optimizer.zero_grad(); loss.backward(); optimizer.step()`), and the
  scheduler update (`scheduler.step(x)`, which also rewrites the learning
  rate stored in the optimizer) are opaque numerical procedures supplied by
  torch; they are embedded as explicit function parameters bundled in `Ops`.
  Batch data, targets and model outputs live in an abstract tensor type `V`.
* Effects are made explicit: mutation of the model / optimizer / scheduler
  objects becomes state threading, `raise` becomes an `Except.error` that
  carries the state at the point of the raise, `torch.save` becomes a
  `saved` field of the result, and the calls to `scheduler.step` and
  `optimizer.step` are recorded in an event trace.
* `model.to(device)` and `data.to(device)` do not change any value and are
  dropped; `copy.deepcopy(model.state_dict())` is the identity on the
  immutable parameter state.
-/

/-- One batch yielded by a dataloader: `data`, `target`, and `data.size(0)`. -/
structure Batch (V : Type) where
  data : V
  target : V
  size : ℕ

/-- The split names used by the code: `train`, `valid`, `test`. -/
inductive Phase
  | train
  | valid
  | test
deriving DecidableEq

/-- The `dataloaders` dict: one finite list of batches per split. -/
structure DLs (V : Type) where
  train : List (Batch V)
  valid : List (Batch V)
  test : List (Batch V)

/-- The `datasets_len` dict: the example count of each split (as a rational,
since it is only used as a divisor of float sums). -/
structure Sizes where
  train : ℚ
  valid : ℚ
  test : ℚ

/-- Look a phase up in the `dataloaders` dict. -/
def DLs.get {V : Type} (d : DLs V) : Phase → List (Batch V)
  | Phase.train => d.train
  | Phase.valid => d.valid
  | Phase.test => d.test

/-- Look a phase up in the `datasets_len` dict. -/
def Sizes.get (s : Sizes) : Phase → ℚ
  | Phase.train => s.train
  | Phase.valid => s.valid
  | Phase.test => s.test

/-- The state captured by `model.state_dict()`: the first linear layer's
weight matrix `model.fc[0].weight` (flattened) and the remaining parameter
tensors.  In torch `model.fc[0].weight` is itself registered as a parameter,
so `model.parameters()` always contains it; `MLPState.parameters` below
reflects that. -/
structure MLPState where
  fc0weight : List ℚ
  otherParams : List (List ℚ)
deriving DecidableEq

/-- The sequence yielded by `model.parameters()`: the first layer's weight
together with all remaining parameter tensors. -/
def MLPState.parameters (m : MLPState) : List (List ℚ) :=
  m.fc0weight :: m.otherParams

/-- Embedding of `torch.norm(W, p=1)`: sum of absolute values. -/
def l1normQ (w : List ℚ) : ℚ := (w.map (fun x => |x|)).sum

/-- Embedding of `W.norm(2)`: square root of the sum of squares (the float
square root is idealized by the rational square root). -/
def l2normQ (w : List ℚ) : ℚ := Rat.sqrt ((w.map (fun x => x ^ 2)).sum)

/-- Embedding of `add_regularization` (train.py lines 14-30).  The L2 branch
of the source accumulates `W.norm(2)` over `model.parameters()` starting
from `None`; since `parameters` is non-empty by construction this
accumulation is the plain sum of the norms. -/
def add_regularization (model : MLPState) (loss : ℚ)
    (L1norm L2norm : Bool) (L1lambda L2lambda : ℚ) : ℚ :=
  let loss1 := if L1norm then loss + L1lambda * l1normQ model.fc0weight else loss
  if L2norm then loss1 + L2lambda * (model.parameters.map l2normQ).sum else loss1

/-- Modelled from the spec: the `EarlyStopping` callback is imported from
`sysnet/sources/callbacks.py`, which is not among the sources; its contract
is given by spec section 4.2: best-seen loss starts at plus infinity
(represented by `none`), `update(val_loss)` records a strict improvement and
resets the counter, otherwise increments the counter, and sets the terminal
flag once the counter reaches `patience`. -/
structure EarlyStopping where
  patience : ℕ
  best : Option ℚ
  counter : ℕ
  early_stop : Bool
deriving DecidableEq

/-- Modelled from the spec: one `early_stopping(val_loss)` call, see
`EarlyStopping`. -/
def EarlyStopping.update (es : EarlyStopping) (val : ℚ) : EarlyStopping :=
  match es.best with
  | none => { es with best := some val, counter := 0 }
  | some b =>
    if val < b then { es with best := some val, counter := 0 }
    else
      let c := es.counter + 1
      { es with counter := c, early_stop := es.early_stop || decide (es.patience ≤ c) }

/-- Trace events: a `scheduler.step(arg)` call and an `optimizer.step()`
call. -/
inductive Ev
  | sched (arg : ℚ)
  | opt
deriving DecidableEq

/-- The opaque torch procedures used by the loop, as explicit functions.
`fwdTrain` is a forward pass in training mode (it may update buffers held in
the model state and returns the outputs with the new state); `fwdEval` is a
forward pass in evaluation mode (pure); `optStep` is the effect of
`loss.backward(); optimizer.step()` on the model parameters and the
optimizer state, for the regularized loss built from the given batch;
`schedStep` is `scheduler.step(arg)`, which updates the scheduler state and
the learning rate stored in the optimizer. -/
structure Ops (V OS SS : Type) where
  fwdTrain : MLPState → V → V × MLPState
  fwdEval : MLPState → V → V
  optStep : Bool → Bool → ℚ → ℚ → Batch V → MLPState → OS → MLPState × OS
  schedStep : ℚ → SS → OS → SS × OS

/-- The ambient collaborators of the training functions: the torch
procedures, the loss `criterion`, the `dataloaders` and `datasets_len`
dicts, and the filesystem oracle behind `os.path.exists`. -/
structure Ctx (V OS SS : Type) where
  ops : Ops V OS SS
  criterion : V → V → ℚ
  dls : DLs V
  sizes : Sizes
  dirExists : String → Bool

/-- Strip trailing slashes, as `head.rstrip('/')` does. -/
def stripTrailingSlashes (l : List Char) : List Char :=
  (l.reverse.dropWhile (fun c => c = '/')).reverse

/-- Embedding of `os.path.dirname` (posixpath): everything up to the last
slash, with trailing slashes stripped unless the prefix is all slashes; the
empty string when there is no slash. -/
def dirname (p : String) : String :=
  let cs := p.toList
  match cs.reverse.findIdx? (fun c => c = '/') with
  | none => ""
  | some j =>
    let head := cs.take (cs.length - j)
    if head.all (fun c => c = '/') then String.mk head
    else String.mk (stripTrailingSlashes head)

/-- Embedding of `np.argmin`: index of the first occurrence of the minimum
value of a list. -/
def argminIdx : List ℚ → ℕ
  | [] => 0
  | [_] => 0
  | x :: y :: rest =>
    let j := argminIdx (y :: rest)
    if x ≤ (y :: rest).getD j 0 then 0 else j + 1

/-- Embedding of `np.linspace start stop n` (with endpoint): the arithmetic
progression of `n` points from `start` to `stop` inclusive. -/
def linspaceQ (start stop : ℚ) (n : ℕ) : List ℚ :=
  (List.range n).map (fun k => start + (stop - start) * k / ((n : ℚ) - 1))

/-- Embedding of `np.logspace (-6) 0 10` (train.py line 46): ten powers of
ten at exponents linearly spaced from -6 to 0.  Exact real exponentiation is
irrational at the interior points, so the floating `10 ** e` map is passed
in as `tenPow`. -/
def l1_lambdas (tenPow : ℚ → ℚ) : List ℚ :=
  (linspaceQ (-6) 0 10).map tenPow

/-- The mutable locals of the training phase of one epoch: model state,
optimizer state, scheduler state, the per-batch counter `i`, the
accumulator `running_train_loss`, and the trace of step calls. -/
structure TrainPh (OS SS : Type) where
  theta : MLPState
  os : OS
  ss : Option SS
  i : ℕ
  running : ℚ
  evs : List Ev

/-- Embedding of the training phase of one epoch of `train_val`
(train.py lines 170-200): per batch, step the scheduler (when present) with
`epoch + i/num_iter` and advance `i`, zero the gradients, forward pass,
base loss by `criterion`, `add_regularization`, backward pass and optimizer
step, and accumulate `loss.item() * data.size(0)`. -/
def trainLoop {V OS SS : Type} (C : Ctx V OS SS)
    (L1norm L2norm : Bool) (L1lambda L2lambda : ℚ)
    (epoch numIter : ℕ) :
    List (Batch V) → TrainPh OS SS → TrainPh OS SS
  | [], st => st
  | b :: rest, st =>
    let st1 :=
      match st.ss with
      | some s =>
        let arg := (epoch : ℚ) + (st.i : ℚ) / (numIter : ℚ)
        let so := C.ops.schedStep arg s st.os
        { st with ss := some so.1, os := so.2, i := st.i + 1,
                  evs := st.evs ++ [Ev.sched arg] }
      | none => st
    let fw := C.ops.fwdTrain st1.theta b.data
    let loss0 := C.criterion fw.1 b.target
    let loss := add_regularization fw.2 loss0 L1norm L2norm L1lambda L2lambda
    let su := C.ops.optStep L1norm L2norm L1lambda L2lambda b fw.2 st1.os
    trainLoop C L1norm L2norm L1lambda L2lambda epoch numIter rest
      { theta := su.1, os := su.2, ss := st1.ss, i := st1.i,
        running := st1.running + loss * (b.size : ℚ),
        evs := st1.evs ++ [Ev.opt] }

/-- Embedding of the validation phase of one epoch of `train_val`
(train.py lines 202-214): evaluation-mode forward passes with no gradient
tracking, accumulating `loss.item() * data.size(0)` and dividing by the
split size. -/
def validLossOf {V OS SS : Type} (C : Ctx V OS SS) (theta : MLPState) : ℚ :=
  (C.dls.valid.foldl
    (fun acc b => acc + C.criterion (C.ops.fwdEval theta b.data) b.target * (b.size : ℚ))
    0) / C.sizes.valid

/-- The mutable locals of the epoch loop of `train_val`. -/
structure TVState (OS SS : Type) where
  theta : MLPState
  os : OS
  sched : Option SS
  best_model_wts : MLPState
  best_val_loss : ℚ
  train_losses : List ℚ
  valid_losses : List ℚ
  es : EarlyStopping
  events : List Ev
  stopped : Bool

/-- Embedding of one iteration of the epoch loop of `train_val`
(train.py lines 164-226, without the break): training phase, validation
phase, best-checkpoint update on strict improvement (the deep copy is taken
only when `output_path` is given), and the early-stopping update. -/
def runEpoch {V OS SS : Type} (C : Ctx V OS SS)
    (L1norm L2norm : Bool) (L1lambda L2lambda : ℚ)
    (output_path : Option String) (epoch : ℕ)
    (s : TVState OS SS) : TVState OS SS :=
  let numIter := C.dls.train.length
  let tp := trainLoop C L1norm L2norm L1lambda L2lambda epoch numIter C.dls.train
    { theta := s.theta, os := s.os, ss := s.sched, i := 0, running := 0, evs := [] }
  let lossTrain := tp.running / C.sizes.train
  let lossValid := validLossOf C tp.theta
  { theta := tp.theta, os := tp.os, sched := tp.ss,
    best_model_wts :=
      if lossValid < s.best_val_loss then
        (if output_path.isSome then tp.theta else s.best_model_wts)
      else s.best_model_wts,
    best_val_loss := if lossValid < s.best_val_loss then lossValid else s.best_val_loss,
    train_losses := s.train_losses ++ [lossTrain],
    valid_losses := s.valid_losses ++ [lossValid],
    es := s.es.update lossValid,
    events := s.events ++ tp.evs,
    stopped := s.stopped }

/-- Embedding of the epoch loop of `train_val` (train.py lines 164-229):
run the epochs in order, breaking as soon as the early-stopping monitor
turns terminal; the `stopped` flag records that the break was taken. -/
def runEpochs {V OS SS : Type} (C : Ctx V OS SS)
    (L1norm L2norm : Bool) (L1lambda L2lambda : ℚ)
    (output_path : Option String) :
    ℕ → ℕ → TVState OS SS → TVState OS SS
  | _, 0, s => s
  | epoch, n + 1, s =>
    let s1 := runEpoch C L1norm L2norm L1lambda L2lambda output_path epoch s
    if s1.es.early_stop then { s1 with stopped := true }
    else runEpochs C L1norm L2norm L1lambda L2lambda output_path (epoch + 1) n s1

/-- The state at the point of the `raise RuntimeError` in `train_val`: the
message together with the (unchanged) model and optimizer state. -/
structure TVError (OS : Type) where
  msg : String
  modelSt : MLPState
  opt : OS
deriving DecidableEq

/-- Everything `train_val` leaves behind: its return triple
`(train_losses, valid_losses, best_val_loss)`, the final model, optimizer
and scheduler state, the `torch.save(best_model_wts, output_path)` effect,
the trace of scheduler/optimizer step calls, and whether the early-stopping
break was taken. -/
structure TVResult (OS SS : Type) where
  train_losses : List ℚ
  valid_losses : List ℚ
  best_val_loss : ℚ
  modelSt : MLPState
  opt : OS
  sched : Option SS
  saved : Option (String × MLPState)
  events : List Ev
  earlyStopped : Bool

/-- Embedding of the body of `train_val` after the precondition check
(train.py lines 153-234).  The sentinel `best_val_loss` is `1.0e6`; the
early-stopping monitor is constructed with `patience=10`; at the end the
best checkpoint is persisted exactly when `output_path` is given. -/
def trainValBody {V OS SS : Type} (C : Ctx V OS SS)
    (theta0 : MLPState) (os0 : OS) (nepochs : ℕ)
    (output_path : Option String) (scheduler : Option SS)
    (L1lambda L2lambda : ℚ) (L1norm L2norm : Bool) : TVResult OS SS :=
  let s0 : TVState OS SS :=
    { theta := theta0, os := os0, sched := scheduler,
      best_model_wts := theta0, best_val_loss := 1000000,
      train_losses := [], valid_losses := [],
      es := { patience := 10, best := none, counter := 0, early_stop := false },
      events := [], stopped := false }
  let s := runEpochs C L1norm L2norm L1lambda L2lambda output_path 0 nepochs s0
  { train_losses := s.train_losses, valid_losses := s.valid_losses,
    best_val_loss := s.best_val_loss, modelSt := s.theta, opt := s.os,
    sched := s.sched,
    saved := output_path.map (fun p => (p, s.best_model_wts)),
    events := s.events, earlyStopped := s.stopped }

/-- Embedding of `train_val` (train.py lines 112-234).  The precondition
check (lines 148-151) raises when `output_path` is given and
`os.path.exists` is false of its `os.path.dirname`; the raise happens
before the epoch loop, so the error carries the untouched model and
optimizer state. -/
def train_val {V OS SS : Type} (C : Ctx V OS SS)
    (theta0 : MLPState) (os0 : OS) (nepochs : ℕ)
    (output_path : Option String) (scheduler : Option SS)
    (L1lambda L2lambda : ℚ) (L1norm L2norm : Bool) :
    Except (TVError OS) (TVResult OS SS) :=
  match output_path with
  | some p =>
    if C.dirExists (dirname p) then
      Except.ok (trainValBody C theta0 os0 nepochs (some p) scheduler L1lambda L2lambda L1norm L2norm)
    else Except.error { msg := dirname p ++ " does not exist", modelSt := theta0, opt := os0 }
  | none =>
    Except.ok (trainValBody C theta0 os0 nepochs none scheduler L1lambda L2lambda L1norm L2norm)

/-- Embedding of `evaluate` (train.py lines 237-251): evaluation-mode
forward passes over the named split with no gradient tracking, accumulating
`criterion(target, model(data)) * data.size(0)` (note the swapped argument
order relative to the loop in `train_val`) and dividing by the split
size. -/
def evaluate {V OS SS : Type} (C : Ctx V OS SS) (theta : MLPState)
    (phase : Phase) : ℚ :=
  (((C.dls.get phase).foldl
    (fun acc b => acc + C.criterion b.target (C.ops.fwdEval theta b.data) * (b.size : ℚ))
    0) / C.sizes.get phase)

/-- Embedding of the trial loop of `tune_L1` (train.py lines 51-68): for
each L1 strength in order, re-initialize the model weights with
`model.apply(weight_reset)` (abstracted as `resetW`, since
`reset_parameters` draws fresh random initial values for the linear and
batch-norm layers), run `train_val` with that strength, `L1norm=True`, the
shared optimizer state, no output path and no scheduler, and record the
returned best validation loss.  An exception escaping `train_val` would
propagate (it never does on this call shape). -/
def tuneL1Go {V OS SS : Type} (C : Ctx V OS SS)
    (resetW : MLPState → MLPState) (nepochs : ℕ) :
    List ℚ → MLPState → OS → List ℚ → Except String (List ℚ × MLPState × OS)
  | [], theta, os, acc => Except.ok (acc, theta, os)
  | lam :: rest, theta, os, acc =>
    match train_val C (resetW theta) os nepochs none none
        lam (1 / 1000000) true false with
    | Except.error e => Except.error e.msg
    | Except.ok r => tuneL1Go C resetW nepochs rest r.modelSt r.opt (acc ++ [r.best_val_loss])

/-- Embedding of `tune_L1` (train.py lines 37-71): assert `nepochs < 10`
(an `AssertionError` with the given message otherwise, raised before any
trial), sweep `np.logspace(-6, 0, 10)` reusing the one optimizer across
trials, and return `l1_lambdas[np.argmin(best_val_losses)]` together with
the final model and optimizer state left behind by the trials. -/
def tune_L1 {V OS SS : Type} (C : Ctx V OS SS)
    (theta0 : MLPState) (os0 : OS) (nepochs : ℕ)
    (tenPow : ℚ → ℚ) (resetW : MLPState → MLPState) :
    Except String (ℚ × MLPState × OS) :=
  if 10 ≤ nepochs then Except.error "max nepochs for hyper parameter tunning: 10"
  else
    match tuneL1Go C resetW nepochs (l1_lambdas tenPow) theta0 os0 [] with
    | Except.error e => Except.error e
    | Except.ok (losses, theta, os) =>
      Except.ok ((l1_lambdas tenPow).getD (argminIdx losses) 0, theta, os)

/-- Embedding of the trial loop of `tune_model_structure` (train.py lines
87-106): for each candidate structure, build a fresh model `DNN(*structure)`
(abstracted as `mkModel`) and a fresh `AdamW` optimizer over its parameters
(abstracted as `mkOpt`, with `adamw_kw` folded in), run `train_val` with all
regularization defaults, no output path and no scheduler, and record the
returned best validation loss. -/
def tuneMSGo {V OS SS : Type} (C : Ctx V OS SS)
    (mkModel : List ℕ → MLPState) (mkOpt : MLPState → OS) (nepochs : ℕ) :
    List (List ℕ) → List ℚ → Except String (List ℚ)
  | [], acc => Except.ok acc
  | st :: rest, acc =>
    let model := mkModel st
    match train_val C model (mkOpt model) nepochs none none
        (1 / 1000) (1 / 1000000) false false with
    | Except.error e => Except.error e.msg
    | Except.ok r => tuneMSGo C mkModel mkOpt nepochs rest (acc ++ [r.best_val_loss])

/-- Embedding of `tune_model_structure` (train.py lines 74-109): assert
`nepochs < 10` (raised before any trial), run one fresh-model trial per
candidate structure, and return `structures[np.argmin(best_val_losses)]`. -/
def tune_model_structure {V OS SS : Type} (C : Ctx V OS SS)
    (mkModel : List ℕ → MLPState) (mkOpt : MLPState → OS)
    (nepochs : ℕ) (structures : List (List ℕ)) :
    Except String (List ℕ) :=
  if 10 ≤ nepochs then Except.error "max nepochs for hyper parameter tunning: 10"
  else
    match tuneMSGo C mkModel mkOpt nepochs structures [] with
    | Except.error e => Except.error e
    | Except.ok losses => Except.ok (structures.getD (argminIdx losses) [])

/-! Helper lemmas. -/

lemma foldl_min_le_init : ∀ (l : List ℚ) (a : ℚ), l.foldl min a ≤ a
  | [], _ => le_refl _
  | x :: l, a => le_trans (foldl_min_le_init l (min a x)) (min_le_left a x)

lemma foldl_min_le_mem : ∀ (l : List ℚ) (a x : ℚ), x ∈ l → l.foldl min a ≤ x := by
  intro l
  induction l with
  | nil => intro a x hx; cases hx
  | cons y l ih =>
    intro a x hx
    rcases List.mem_cons.mp hx with h | h
    · subst h
      exact le_trans (foldl_min_le_init l (min a x)) (min_le_right a x)
    · exact ih (min a y) x h

lemma foldl_min_eq_or_mem : ∀ (l : List ℚ) (a : ℚ), l.foldl min a = a ∨ l.foldl min a ∈ l := by
  intro l
  induction l with
  | nil => intro a; exact Or.inl rfl
  | cons y l ih =>
    intro a
    rcases ih (min a y) with h | h
    · rcases le_total a y with hay | hya
      · left; rw [List.foldl_cons, h, min_eq_left hay]
      · right; rw [List.foldl_cons, h, min_eq_right hya]; exact List.mem_cons_self _ _
    · right; exact List.mem_cons_of_mem _ h

lemma if_lt_eq_min (v b : ℚ) : (if v < b then v else b) = min b v := by
  rcases lt_or_ge v b with h | h
  · rw [if_pos h, min_eq_right (le_of_lt h)]
  · rw [if_neg (not_lt.mpr h), min_eq_left h]

/-- The training-phase locals computed at the start of an epoch. -/
def epochTP {V OS SS : Type} (C : Ctx V OS SS) (L1norm L2norm : Bool)
    (L1lambda L2lambda : ℚ) (epoch : ℕ) (s : TVState OS SS) : TrainPh OS SS :=
  trainLoop C L1norm L2norm L1lambda L2lambda epoch C.dls.train.length C.dls.train
    { theta := s.theta, os := s.os, ss := s.sched, i := 0, running := 0, evs := [] }

lemma runEpoch_eq {V OS SS : Type} (C : Ctx V OS SS) (L1norm L2norm : Bool)
    (L1lambda L2lambda : ℚ) (output_path : Option String) (epoch : ℕ)
    (s : TVState OS SS) :
    runEpoch C L1norm L2norm L1lambda L2lambda output_path epoch s =
      (let tp := epochTP C L1norm L2norm L1lambda L2lambda epoch s
       let v := validLossOf C tp.theta
       { theta := tp.theta, os := tp.os, sched := tp.ss,
         best_model_wts :=
           if v < s.best_val_loss then
             (if output_path.isSome then tp.theta else s.best_model_wts)
           else s.best_model_wts,
         best_val_loss := if v < s.best_val_loss then v else s.best_val_loss,
         train_losses := s.train_losses ++ [tp.running / C.sizes.train],
         valid_losses := s.valid_losses ++ [v],
         es := s.es.update v,
         events := s.events ++ tp.evs,
         stopped := s.stopped }) := rfl

lemma train_val_ok_eq {V OS SS : Type} (C : Ctx V OS SS)
    (theta0 : MLPState) (os0 : OS) (nepochs : ℕ)
    (output_path : Option String) (scheduler : Option SS)
    (L1lambda L2lambda : ℚ) (L1norm L2norm : Bool) (r : TVResult OS SS)
    (h : train_val C theta0 os0 nepochs output_path scheduler L1lambda L2lambda L1norm L2norm
          = Except.ok r) :
    r = trainValBody C theta0 os0 nepochs output_path scheduler L1lambda L2lambda L1norm L2norm := by
  cases output_path with
  | none =>
    simp only [train_val] at h
    exact (Except.ok.injEq _ _).mp h |>.symm
  | some p =>
    simp only [train_val] at h
    by_cases hd : C.dirExists (dirname p)
    · rw [if_pos hd] at h
      exact (Except.ok.injEq _ _).mp h |>.symm
    · rw [if_neg hd] at h
      cases h

lemma l1normQ_nonneg (w : List ℚ) : 0 ≤ l1normQ w := by
  apply List.sum_nonneg
  intro x hx
  obtain ⟨y, _, rfl⟩ := List.mem_map.mp hx
  exact abs_nonneg y

lemma l2normQ_nonneg (w : List ℚ) : 0 ≤ l2normQ w := Rat.sqrt_nonneg _

lemma l2norm_sum_nonneg (m : MLPState) : 0 ≤ (m.parameters.map l2normQ).sum := by
  apply List.sum_nonneg
  intro x hx
  obtain ⟨y, _, rfl⟩ := List.mem_map.mp hx
  exact l2normQ_nonneg y

/-- C4: for every model, every base loss, all four `(L1_on, L2_on)` flag
combinations and non-negative regularization strengths (the code only ever
passes positive strengths), `add_regularization` returns a loss greater
than or equal to the base loss it was given: every norm is non-negative. -/
theorem claim_C4_regularized_loss_ge (m : MLPState) (loss : ℚ)
    (L1norm L2norm : Bool) (l1 l2 : ℚ) (h1 : 0 ≤ l1) (h2 : 0 ≤ l2) :
    loss ≤ add_regularization m loss L1norm L2norm l1 l2 := by
  have hn1 : 0 ≤ l1 * l1normQ m.fc0weight := mul_nonneg h1 (l1normQ_nonneg _)
  have hn2 : 0 ≤ l2 * (m.parameters.map l2normQ).sum := mul_nonneg h2 (l2norm_sum_nonneg m)
  unfold add_regularization
  cases L1norm <;> cases L2norm <;> simp <;> linarith

/-- Witness for C4 at a concrete model, base loss and strengths. -/
theorem claim_C4_witness :
    (0 : ℚ) ≤ 1 ∧
      (5 : ℚ) ≤ add_regularization { fc0weight := [1, -2], otherParams := [[3]] } 5 true true 1 1 :=
  ⟨by norm_num,
   claim_C4_regularized_loss_ge { fc0weight := [1, -2], otherParams := [[3]] } 5 true true 1 1
     (by norm_num) (by norm_num)⟩

lemma runEpochs_best {V OS SS : Type} (C : Ctx V OS SS) (L1norm L2norm : Bool)
    (L1lambda L2lambda : ℚ) (output_path : Option String) :
    ∀ (n e : ℕ) (s : TVState OS SS),
      s.best_val_loss = s.valid_losses.foldl min 1000000 →
      (runEpochs C L1norm L2norm L1lambda L2lambda output_path e n s).best_val_loss =
        (runEpochs C L1norm L2norm L1lambda L2lambda output_path e n s).valid_losses.foldl
          min 1000000 := by
  intro n
  induction n with
  | zero => intro e s h; exact h
  | succ n ih =>
    intro e s h
    rw [runEpochs]
    have h1 : (runEpoch C L1norm L2norm L1lambda L2lambda output_path e s).best_val_loss =
        (runEpoch C L1norm L2norm L1lambda L2lambda output_path e s).valid_losses.foldl
          min 1000000 := by
      rw [runEpoch_eq]
      simp only [List.foldl_append, List.foldl_cons, List.foldl_nil]
      rw [← h, if_lt_eq_min]
    split
    · exact h1
    · exact ih (e + 1) _ h1

/-- C1 (corrected): the loop in `train_val` starts `best_val_loss` at the
sentinel `1.0e6` and only replaces it on a strict improvement, so the
returned `best_val_loss` is `min(1.0e6, min(valid_losses))`: it is a lower
bound of the returned `valid_losses`, it is at most `1.0e6`, and it is
either exactly `1.0e6` or one of the recorded validation losses.  It equals
`min(valid_losses)` exactly when some validation loss is below the
sentinel; the original claim fails when every epoch's validation loss is at
least `1.0e6`. -/
theorem claim_C1_amended_best_val_loss {V OS SS : Type} (C : Ctx V OS SS)
    (theta0 : MLPState) (os0 : OS) (nepochs : ℕ)
    (output_path : Option String) (scheduler : Option SS)
    (L1lambda L2lambda : ℚ) (L1norm L2norm : Bool) (r : TVResult OS SS)
    (hok : train_val C theta0 os0 nepochs output_path scheduler L1lambda L2lambda L1norm L2norm
           = Except.ok r) :
    (∀ x ∈ r.valid_losses, r.best_val_loss ≤ x) ∧
      r.best_val_loss ≤ 1000000 ∧
      (r.best_val_loss = 1000000 ∨ r.best_val_loss ∈ r.valid_losses) := by
  have hr := train_val_ok_eq C theta0 os0 nepochs output_path scheduler L1lambda L2lambda
    L1norm L2norm r hok
  subst hr
  have hbest := runEpochs_best C L1norm L2norm L1lambda L2lambda output_path nepochs 0
    { theta := theta0, os := os0, sched := scheduler,
      best_model_wts := theta0, best_val_loss := 1000000,
      train_losses := [], valid_losses := [],
      es := { patience := 10, best := none, counter := 0, early_stop := false },
      events := [], stopped := false } rfl
  refine ⟨?_, ?_, ?_⟩
  · intro x hx
    rw [trainValBody] at hx ⊢
    rw [hbest]
    exact foldl_min_le_mem _ _ _ hx
  · rw [trainValBody, hbest]
    exact foldl_min_le_init _ _
  · rw [trainValBody, hbest]
    exact foldl_min_eq_or_mem _ _

/-- Concrete model state used by the closed instances below. -/
def Wth : MLPState := { fc0weight := [1, -2], otherParams := [[3]] }

/-- Concrete opaque torch procedures: forward passes return `0` and leave
the state alone, optimizer and scheduler steps leave the state alone. -/
def WopsId : Ops ℚ Unit Unit :=
  { fwdTrain := fun th _ => (0, th),
    fwdEval := fun _ _ => 0,
    optStep := fun _ _ _ _ _ th os => (th, os),
    schedStep := fun _ s os => (s, os) }

/-- Concrete dataloaders: one training batch and one validation batch, each
of size one, with target `1`. -/
def Wdls1 : DLs ℚ :=
  { train := [ { data := 0, target := 1, size := 1 } ],
    valid := [ { data := 0, target := 1, size := 1 } ],
    test := [] }

/-- Concrete split sizes. -/
def Wsizes : Sizes := { train := 1, valid := 1, test := 1 }

/-- A context whose criterion is constantly `2.0e6`, above the sentinel. -/
def WctxBig : Ctx ℚ Unit Unit :=
  { ops := WopsId, criterion := fun _ _ => 2000000, dls := Wdls1, sizes := Wsizes,
    dirExists := fun _ => true }

/-- Counterexample to C1 as stated: a one-epoch run whose only validation
loss is `2.0e6`; the minimum of the returned `valid_losses` is `2.0e6`, but
the returned `best_val_loss` is the untouched sentinel `1.0e6`. -/
theorem claim_C1_counterexample :
    (train_val WctxBig Wth () 1 none none 1 1 false false).toOption.map
        (fun r => (r.valid_losses, r.best_val_loss)) = some ([2000000], 1000000) ∧
      (1000000 : ℚ) ≠ 2000000 := by
  constructor
  · norm_num [train_val, trainValBody, runEpochs, runEpoch, trainLoop, validLossOf,
      EarlyStopping.update, add_regularization, WctxBig, WopsId, Wdls1, Wsizes, Wth,
      Except.toOption]
  · norm_num

/-- A context whose criterion is constantly `5`. -/
def WctxFive : Ctx ℚ Unit Unit :=
  { ops := WopsId, criterion := fun _ _ => 5, dls := Wdls1, sizes := Wsizes,
    dirExists := fun _ => true }

/-- Witness for the amended C1 at a concrete one-epoch run with validation
loss `5`. -/
theorem claim_C1_witness :
    ∃ r, train_val WctxFive Wth () 1 none none 1 1 false false = Except.ok r ∧
      ((∀ x ∈ r.valid_losses, r.best_val_loss ≤ x) ∧
        r.best_val_loss ≤ 1000000 ∧
        (r.best_val_loss = 1000000 ∨ r.best_val_loss ∈ r.valid_losses)) := by
  refine ⟨_, rfl, ?_⟩
  exact claim_C1_amended_best_val_loss WctxFive Wth () 1 none none 1 1 false false _ rfl

lemma runEpochs_len {V OS SS : Type} (C : Ctx V OS SS) (L1norm L2norm : Bool)
    (L1lambda L2lambda : ℚ) (output_path : Option String) :
    ∀ (n e : ℕ) (s : TVState OS SS), s.stopped = false →
      ∃ k, k ≤ n ∧
        (runEpochs C L1norm L2norm L1lambda L2lambda output_path e n s).train_losses.length
          = s.train_losses.length + k ∧
        (runEpochs C L1norm L2norm L1lambda L2lambda output_path e n s).valid_losses.length
          = s.valid_losses.length + k ∧
        ((runEpochs C L1norm L2norm L1lambda L2lambda output_path e n s).stopped = false →
          k = n) := by
  intro n
  induction n with
  | zero =>
    intro e s hs
    exact ⟨0, le_refl 0, rfl, rfl, fun _ => rfl⟩
  | succ n ih =>
    intro e s hs
    rw [runEpochs]
    have hlen1 : (runEpoch C L1norm L2norm L1lambda L2lambda output_path e s).train_losses.length
        = s.train_losses.length + 1 := by
      rw [runEpoch_eq]; simp
    have hlen2 : (runEpoch C L1norm L2norm L1lambda L2lambda output_path e s).valid_losses.length
        = s.valid_losses.length + 1 := by
      rw [runEpoch_eq]; simp
    have hst : (runEpoch C L1norm L2norm L1lambda L2lambda output_path e s).stopped = false := by
      rw [runEpoch_eq]; simpa using hs
    split
    · refine ⟨1, Nat.one_le_iff_ne_zero.mpr (Nat.succ_ne_zero n), by simpa using hlen1,
        by simpa using hlen2, ?_⟩
      intro hfalse
      simp at hfalse
    · obtain ⟨k, hk, h1, h2, h3⟩ := ih (e + 1) _ hst
      refine ⟨k + 1, Nat.succ_le_succ hk, ?_, ?_, ?_⟩
      · rw [h1, hlen1]; ring
      · rw [h2, hlen2]; ring
      · intro hfin
        rw [h3 hfin]

/-- C3: `train_val` returns train-loss and valid-loss sequences of equal
length; that length is at most `nepochs`; and it equals `nepochs` whenever
the early-stopping break was not taken, so a shorter pair of sequences is
returned exactly when early stopping terminated the epoch loop with the
losses recorded up to the stopping epoch.  The `EarlyStopping` monitor that
decides the break is modelled from spec section 4.2, since
`sysnet/sources/callbacks.py` is not among the sources. -/
theorem claim_C3_loss_lengths {V OS SS : Type} (C : Ctx V OS SS)
    (theta0 : MLPState) (os0 : OS) (nepochs : ℕ)
    (output_path : Option String) (scheduler : Option SS)
    (L1lambda L2lambda : ℚ) (L1norm L2norm : Bool) (r : TVResult OS SS)
    (hok : train_val C theta0 os0 nepochs output_path scheduler L1lambda L2lambda L1norm L2norm
           = Except.ok r) :
    r.train_losses.length = r.valid_losses.length ∧
      r.train_losses.length ≤ nepochs ∧
      (r.earlyStopped = false → r.train_losses.length = nepochs) := by
  have hr := train_val_ok_eq C theta0 os0 nepochs output_path scheduler L1lambda L2lambda
    L1norm L2norm r hok
  subst hr
  obtain ⟨k, hk, h1, h2, h3⟩ := runEpochs_len C L1norm L2norm L1lambda L2lambda output_path
    nepochs 0
    { theta := theta0, os := os0, sched := scheduler,
      best_model_wts := theta0, best_val_loss := 1000000,
      train_losses := [], valid_losses := [],
      es := { patience := 10, best := none, counter := 0, early_stop := false },
      events := [], stopped := false } rfl
  simp only [List.length_nil, Nat.zero_add] at h1 h2
  refine ⟨?_, ?_, ?_⟩
  · rw [trainValBody]; rw [h1, h2]
  · rw [trainValBody]; rw [h1]; exact hk
  · intro hes
    rw [trainValBody] at hes ⊢
    rw [h1]
    exact h3 hes

/-- Witness for C3 at a concrete two-epoch run. -/
theorem claim_C3_witness :
    ∃ r, train_val WctxFive Wth () 2 none none 1 1 false false = Except.ok r ∧
      (r.train_losses.length = r.valid_losses.length ∧
        r.train_losses.length ≤ 2 ∧
        (r.earlyStopped = false → r.train_losses.length = 2)) := by
  refine ⟨_, rfl, ?_⟩
  exact claim_C3_loss_lengths WctxFive Wth () 2 none none 1 1 false false _ rfl

/-- C8: `train_val` raises if and only if `output_path` is given and
`os.path.exists` is false of its containing directory `os.path.dirname
(output_path)`; the raise happens before the epoch loop, so the error state
still holds the caller's model weights and optimizer state unchanged and no
training step has been performed. -/
theorem claim_C8_output_dir_check {V OS SS : Type} (C : Ctx V OS SS)
    (theta0 : MLPState) (os0 : OS) (nepochs : ℕ)
    (output_path : Option String) (scheduler : Option SS)
    (L1lambda L2lambda : ℚ) (L1norm L2norm : Bool) :
    ((∃ e, train_val C theta0 os0 nepochs output_path scheduler L1lambda L2lambda L1norm L2norm
        = Except.error e) ↔
      (∃ p, output_path = some p ∧ C.dirExists (dirname p) = false)) ∧
      (∀ e, train_val C theta0 os0 nepochs output_path scheduler L1lambda L2lambda L1norm L2norm
          = Except.error e →
        e.modelSt = theta0 ∧ e.opt = os0 ∧
          (∃ p, output_path = some p ∧ e.msg = dirname p ++ " does not exist")) := by
  cases output_path with
  | none =>
    constructor
    · constructor
      · rintro ⟨e, he⟩
        simp [train_val] at he
      · rintro ⟨p, hp, _⟩
        cases hp
    · intro e he
      simp [train_val] at he
  | some p =>
    constructor
    · constructor
      · rintro ⟨e, he⟩
        simp only [train_val] at he
        by_cases hd : C.dirExists (dirname p)
        · rw [if_pos hd] at he; cases he
        · exact ⟨p, rfl, Bool.not_eq_true _ ▸ (by simpa using hd)⟩
      · rintro ⟨q, hq, hd⟩
        cases hq
        refine ⟨{ msg := dirname p ++ " does not exist", modelSt := theta0, opt := os0 }, ?_⟩
        simp only [train_val]
        rw [if_neg (by simp [hd])]
    · intro e he
      simp only [train_val] at he
      by_cases hd : C.dirExists (dirname p)
      · rw [if_pos hd] at he; cases he
      · rw [if_neg hd] at he
        cases he
        exact ⟨rfl, rfl, p, rfl, rfl⟩

/-- A context whose filesystem oracle reports every directory missing. -/
def WctxNoDir : Ctx ℚ Unit Unit :=
  { ops := WopsId, criterion := fun _ _ => 5, dls := Wdls1, sizes := Wsizes,
    dirExists := fun _ => false }

/-- Witness for C8: with a missing output directory, `train_val` errors and
the error carries the unchanged model and optimizer state. -/
theorem claim_C8_witness :
    ∃ e, train_val WctxNoDir Wth () 3 (some "d/m.pt") none 1 1 false false = Except.error e ∧
      e.modelSt = Wth ∧ e.opt = () := by
  obtain ⟨e, he⟩ :=
    (claim_C8_output_dir_check WctxNoDir Wth () 3 (some "d/m.pt") none 1 1 false false).1.mpr
      ⟨"d/m.pt", rfl, rfl⟩
  obtain ⟨h1, h2, _⟩ :=
    (claim_C8_output_dir_check WctxNoDir Wth () 3 (some "d/m.pt") none 1 1 false false).2 e he
  exact ⟨e, he, h1, h2⟩

/-- C9: with `nepochs = 0` (and an existing output directory when
`output_path` is given) the epoch loop never runs: `train_val` returns the
empty loss lists with the sentinel `best_val_loss = 1.0e6`, leaves the
model and optimizer state untouched, and, when `output_path` is given,
persists the initial weights to it. -/
theorem claim_C9_zero_epochs {V OS SS : Type} (C : Ctx V OS SS)
    (theta0 : MLPState) (os0 : OS)
    (output_path : Option String) (scheduler : Option SS)
    (L1lambda L2lambda : ℚ) (L1norm L2norm : Bool)
    (hp : ∀ p, output_path = some p → C.dirExists (dirname p) = true) :
    train_val C theta0 os0 0 output_path scheduler L1lambda L2lambda L1norm L2norm =
      Except.ok
        { train_losses := [], valid_losses := [], best_val_loss := 1000000,
          modelSt := theta0, opt := os0, sched := scheduler,
          saved := output_path.map (fun p => (p, theta0)),
          events := [], earlyStopped := false } := by
  cases output_path with
  | none => rfl
  | some p =>
    simp only [train_val]
    rw [if_pos (hp p rfl)]
    rfl

/-- Witness for C9 at a concrete zero-epoch run with an output path. -/
theorem claim_C9_witness :
    train_val WctxFive Wth () 0 (some "d/m.pt") none 1 1 false false =
      Except.ok
        { train_losses := [], valid_losses := [], best_val_loss := 1000000,
          modelSt := Wth, opt := (), sched := none,
          saved := some ("d/m.pt", Wth),
          events := [], earlyStopped := false } :=
  claim_C9_zero_epochs WctxFive Wth () (some "d/m.pt") none 1 1 false false
    (fun p h => by cases h; rfl)

lemma runEpoch_ckpt {V OS SS : Type} (C : Ctx V OS SS) (L1norm L2norm : Bool)
    (L1lambda L2lambda : ℚ) (p : String) (e : ℕ) (s : TVState OS SS)
    (h : s.best_val_loss < 1000000 → validLossOf C s.best_model_wts = s.best_val_loss) :
    (runEpoch C L1norm L2norm L1lambda L2lambda (some p) e s).best_val_loss < 1000000 →
      validLossOf C (runEpoch C L1norm L2norm L1lambda L2lambda (some p) e s).best_model_wts
        = (runEpoch C L1norm L2norm L1lambda L2lambda (some p) e s).best_val_loss := by
  rw [runEpoch_eq]
  by_cases hv :
      validLossOf C (epochTP C L1norm L2norm L1lambda L2lambda e s).theta < s.best_val_loss
  · simp only [hv, if_true, Option.isSome_some]
    intro _
    trivial
  · simp only [hv, if_false]
    exact h

lemma runEpochs_ckpt {V OS SS : Type} (C : Ctx V OS SS) (L1norm L2norm : Bool)
    (L1lambda L2lambda : ℚ) (p : String) :
    ∀ (n e : ℕ) (s : TVState OS SS),
      (s.best_val_loss < 1000000 → validLossOf C s.best_model_wts = s.best_val_loss) →
      ((runEpochs C L1norm L2norm L1lambda L2lambda (some p) e n s).best_val_loss < 1000000 →
        validLossOf C
            (runEpochs C L1norm L2norm L1lambda L2lambda (some p) e n s).best_model_wts
          = (runEpochs C L1norm L2norm L1lambda L2lambda (some p) e n s).best_val_loss) := by
  intro n
  induction n with
  | zero => intro e s h; exact h
  | succ n ih =>
    intro e s h
    rw [runEpochs]
    split
    · exact runEpoch_ckpt C L1norm L2norm L1lambda L2lambda p e s h
    · exact ih (e + 1) _ (runEpoch_ckpt C L1norm L2norm L1lambda L2lambda p e s h)

lemma evaluate_eq_validLossOf {V OS SS : Type} (C : Ctx V OS SS)
    (hsym : ∀ a b, C.criterion a b = C.criterion b a) (theta : MLPState) :
    evaluate C theta Phase.valid = validLossOf C theta := by
  unfold evaluate validLossOf
  have key : ∀ (l : List (Batch V)) (acc : ℚ),
      l.foldl (fun acc b => acc + C.criterion b.target (C.ops.fwdEval theta b.data) * (b.size : ℚ)) acc
        = l.foldl (fun acc b => acc + C.criterion (C.ops.fwdEval theta b.data) b.target * (b.size : ℚ)) acc := by
    intro l
    induction l with
    | nil => intro acc; rfl
    | cons b l ih =>
      intro acc
      rw [List.foldl_cons, List.foldl_cons, hsym]
      exact ih _
  exact congrArg (fun x => x / C.sizes.valid) (key C.dls.valid 0)

/-- C2 (corrected): when the criterion is symmetric in its two arguments
and some epoch's validation loss fell below the `1.0e6` sentinel, the
weights that `train_val` persisted to `output_path` reproduce exactly the
returned `best_val_loss` when re-evaluated with `evaluate` on the same
validation split.  As stated over every criterion the claim fails, because
`evaluate` calls `criterion(target, model(data))` while the validation
phase of `train_val` calls `criterion(outputs, target)`; it also fails when
no epoch improved on the sentinel, since then the sentinel itself is
returned while the saved weights are the initial ones. -/
theorem claim_C2_amended_checkpoint {V OS SS : Type} (C : Ctx V OS SS)
    (theta0 : MLPState) (os0 : OS) (nepochs : ℕ) (p : String)
    (scheduler : Option SS) (L1lambda L2lambda : ℚ) (L1norm L2norm : Bool)
    (r : TVResult OS SS) (w : MLPState)
    (hsym : ∀ a b, C.criterion a b = C.criterion b a)
    (hok : train_val C theta0 os0 nepochs (some p) scheduler L1lambda L2lambda L1norm L2norm
           = Except.ok r)
    (hlt : r.best_val_loss < 1000000)
    (hsav : r.saved = some (p, w)) :
    evaluate C w Phase.valid = r.best_val_loss := by
  have hr := train_val_ok_eq C theta0 os0 nepochs (some p) scheduler L1lambda L2lambda
    L1norm L2norm r hok
  subst hr
  rw [trainValBody] at hsav hlt ⊢
  simp only [Option.map_some] at hsav
  have hw : w =
      (runEpochs C L1norm L2norm L1lambda L2lambda (some p) 0 nepochs
        { theta := theta0, os := os0, sched := scheduler,
          best_model_wts := theta0, best_val_loss := 1000000,
          train_losses := [], valid_losses := [],
          es := { patience := 10, best := none, counter := 0, early_stop := false },
          events := [], stopped := false }).best_model_wts := by
    have := (Option.some.injEq _ _).mp hsav.symm
    exact congrArg Prod.snd this
  subst hw
  rw [evaluate_eq_validLossOf C hsym]
  exact runEpochs_ckpt C L1norm L2norm L1lambda L2lambda p nepochs 0 _
    (fun h => absurd h (by norm_num)) hlt

/-- A context with an asymmetric criterion `(out, target) = out - target`. -/
def WctxAsym : Ctx ℚ Unit Unit :=
  { ops := WopsId, criterion := fun a b => a - b, dls := Wdls1, sizes := Wsizes,
    dirExists := fun _ => true }

/-- Counterexample to C2 as stated: with the asymmetric criterion
`out - target`, a one-epoch run records `best_val_loss = -1` and saves the
(unchanged) weights, but re-evaluating those saved weights on the same
validation split with `evaluate` gives `+1`, because `evaluate` passes the
arguments to the criterion in the opposite order. -/
theorem claim_C2_counterexample :
    (train_val WctxAsym Wth () 1 (some "d/m.pt") none 1 1 false false).toOption.map
        (fun r => (r.best_val_loss, r.saved)) = some (-1, some ("d/m.pt", Wth)) ∧
      evaluate WctxAsym Wth Phase.valid = 1 ∧ ((-1 : ℚ)) ≠ 1 := by
  refine ⟨?_, ?_, by norm_num⟩
  · norm_num [train_val, trainValBody, runEpochs, runEpoch, trainLoop, validLossOf,
      EarlyStopping.update, add_regularization, WctxAsym, WopsId, Wdls1, Wsizes, Wth,
      Except.toOption, dirname]
  · norm_num [evaluate, WctxAsym, WopsId, Wdls1, Wsizes, Wth, DLs.get, Sizes.get]

/-- A context with the symmetric criterion `(a - b)^2`. -/
def WctxSym : Ctx ℚ Unit Unit :=
  { ops := WopsId, criterion := fun a b => (a - b) ^ 2, dls := Wdls1, sizes := Wsizes,
    dirExists := fun _ => true }

/-- Witness for the amended C2 at a concrete symmetric-criterion run whose
validation loss `1` improves on the sentinel. -/
theorem claim_C2_witness :
    ∃ r, train_val WctxSym Wth () 1 (some "d/m.pt") none 1 1 false false = Except.ok r ∧
      r.best_val_loss = 1 ∧ r.saved = some ("d/m.pt", Wth) ∧
      evaluate WctxSym Wth Phase.valid = r.best_val_loss := by
  refine ⟨_, rfl, ?_, ?_, ?_⟩
  · norm_num [train_val, trainValBody, runEpochs, runEpoch, trainLoop, validLossOf,
      EarlyStopping.update, add_regularization, WctxSym, WopsId, Wdls1, Wsizes, Wth,
      dirname]
  · norm_num [train_val, trainValBody, runEpochs, runEpoch, trainLoop, validLossOf,
      EarlyStopping.update, add_regularization, WctxSym, WopsId, Wdls1, Wsizes, Wth,
      dirname]
  · exact claim_C2_amended_checkpoint WctxSym Wth () 1 "d/m.pt" none 1 1 false false _ Wth
      (fun a b => by show (a - b) ^ 2 = (b - a) ^ 2; ring)
      rfl
      (by norm_num [train_val, trainValBody, runEpochs, runEpoch, trainLoop, validLossOf,
        EarlyStopping.update, add_regularization, WctxSym, WopsId, Wdls1, Wsizes, Wth,
        dirname])
      (by norm_num [train_val, trainValBody, runEpochs, runEpoch, trainLoop, validLossOf,
        EarlyStopping.update, add_regularization, WctxSym, WopsId, Wdls1, Wsizes, Wth,
        dirname])

/-- The trace of step calls issued by the training phase when a scheduler
is present: starting at batch counter `i`, for each of `m` remaining
batches one `scheduler.step(epoch + i/numIter)` call immediately followed
by that batch's `optimizer.step()` call. -/
def schedTrace (epoch numIter : ℕ) : ℕ → ℕ → List Ev
  | _, 0 => []
  | i, m + 1 =>
    Ev.sched ((epoch : ℚ) + (i : ℚ) / (numIter : ℚ)) :: Ev.opt ::
      schedTrace epoch numIter (i + 1) m

/-- The per-epoch scheduler/optimizer trace of `train_val` when a scheduler
is present: one `scheduler.step(epoch + i/numIter)` immediately before the
optimizer step of the zero-based batch `i`, for each of the `numIter`
training batches in order. -/
def schedOptBlock (numIter epoch : ℕ) : List Ev :=
  (List.range numIter).flatMap
    (fun i => [Ev.sched ((epoch : ℚ) + (i : ℚ) / (numIter : ℚ)), Ev.opt])

lemma trainLoop_evs {V OS SS : Type} (C : Ctx V OS SS) (L1norm L2norm : Bool)
    (L1lambda L2lambda : ℚ) (e nIter : ℕ) :
    ∀ (bs : List (Batch V)) (st : TrainPh OS SS), st.ss.isSome = true →
      (trainLoop C L1norm L2norm L1lambda L2lambda e nIter bs st).evs =
          st.evs ++ schedTrace e nIter st.i bs.length ∧
        (trainLoop C L1norm L2norm L1lambda L2lambda e nIter bs st).ss.isSome = true := by
  intro bs
  induction bs with
  | nil =>
    intro st h
    simp [trainLoop, schedTrace, h]
  | cons b rest ih =>
    intro st h
    obtain ⟨s0, hs⟩ := Option.isSome_iff_exists.mp h
    rw [trainLoop]
    simp only [hs]
    have hrec := ih
      { theta := (C.ops.optStep L1norm L2norm L1lambda L2lambda b
          (C.ops.fwdTrain st.theta b.data).2
          (C.ops.schedStep ((e : ℚ) + (st.i : ℚ) / (nIter : ℚ)) s0 st.os).2).1,
        os := (C.ops.optStep L1norm L2norm L1lambda L2lambda b
          (C.ops.fwdTrain st.theta b.data).2
          (C.ops.schedStep ((e : ℚ) + (st.i : ℚ) / (nIter : ℚ)) s0 st.os).2).2,
        ss := some (C.ops.schedStep ((e : ℚ) + (st.i : ℚ) / (nIter : ℚ)) s0 st.os).1,
        i := st.i + 1,
        running := st.running +
          add_regularization (C.ops.fwdTrain st.theta b.data).2
            (C.criterion (C.ops.fwdTrain st.theta b.data).1 b.target)
            L1norm L2norm L1lambda L2lambda * (b.size : ℚ),
        evs := (st.evs ++ [Ev.sched ((e : ℚ) + (st.i : ℚ) / (nIter : ℚ))]) ++ [Ev.opt] }
      rfl
    refine ⟨?_, hrec.2⟩
    rw [hrec.1]
    simp [schedTrace, List.append_assoc]

lemma range_flatMap_succ {α : Type} (f : ℕ → List α) (m : ℕ) :
    (List.range (m + 1)).flatMap f = f 0 ++ (List.range m).flatMap (fun k => f (k + 1)) := by
  rw [List.range_succ_eq_map]
  simp [List.flatMap_map]

lemma schedTrace_eq_flatMap (e nIter : ℕ) :
    ∀ (m i : ℕ), schedTrace e nIter i m =
      (List.range m).flatMap
        (fun k => [Ev.sched ((e : ℚ) + ((i + k : ℕ) : ℚ) / (nIter : ℚ)), Ev.opt]) := by
  intro m
  induction m with
  | zero => intro i; simp [schedTrace]
  | succ m ih =>
    intro i
    rw [schedTrace, range_flatMap_succ, ih (i + 1)]
    have harg : ∀ k : ℕ, ((i + 1 + k : ℕ) : ℚ) = ((i + (k + 1) : ℕ) : ℚ) := by
      intro k
      congr 1
      omega
    simp only [Nat.add_zero, harg]
    rfl

lemma runEpoch_evs {V OS SS : Type} (C : Ctx V OS SS) (L1norm L2norm : Bool)
    (L1lambda L2lambda : ℚ) (output_path : Option String) (e : ℕ) (s : TVState OS SS)
    (h : s.sched.isSome = true) :
    (runEpoch C L1norm L2norm L1lambda L2lambda output_path e s).events =
        s.events ++ schedOptBlock C.dls.train.length e ∧
      (runEpoch C L1norm L2norm L1lambda L2lambda output_path e s).sched.isSome = true := by
  rw [runEpoch_eq]
  obtain ⟨hev, hss⟩ := trainLoop_evs C L1norm L2norm L1lambda L2lambda e
    C.dls.train.length C.dls.train
    { theta := s.theta, os := s.os, ss := s.sched, i := 0, running := 0, evs := [] } h
  refine ⟨?_, hss⟩
  show s.events ++ (epochTP C L1norm L2norm L1lambda L2lambda e s).evs = _
  unfold epochTP
  rw [hev]
  rw [schedTrace_eq_flatMap]
  simp [schedOptBlock]

lemma runEpochs_evs {V OS SS : Type} (C : Ctx V OS SS) (L1norm L2norm : Bool)
    (L1lambda L2lambda : ℚ) (output_path : Option String) :
    ∀ (n e : ℕ) (s : TVState OS SS), s.sched.isSome = true →
      ∃ k, k ≤ n ∧
        (runEpochs C L1norm L2norm L1lambda L2lambda output_path e n s).events =
          s.events ++ (List.range k).flatMap
            (fun t => schedOptBlock C.dls.train.length (e + t)) ∧
        (runEpochs C L1norm L2norm L1lambda L2lambda output_path e n s).train_losses.length =
          s.train_losses.length + k := by
  intro n
  induction n with
  | zero =>
    intro e s _
    exact ⟨0, Nat.zero_le 0, by simp [runEpochs], rfl⟩
  | succ n ih =>
    intro e s hs
    obtain ⟨hev, hss⟩ := runEpoch_evs C L1norm L2norm L1lambda L2lambda output_path e s hs
    have hlen : (runEpoch C L1norm L2norm L1lambda L2lambda output_path e s).train_losses.length
        = s.train_losses.length + 1 := by
      rw [runEpoch_eq]; simp
    rw [runEpochs]
    split
    · refine ⟨1, by omega, ?_, by simpa using hlen⟩
      show (runEpoch C L1norm L2norm L1lambda L2lambda output_path e s).events = _
      rw [hev]
      simp [range_flatMap_succ]
    · obtain ⟨k, hk, h1, h2⟩ := ih (e + 1) _ hss
      refine ⟨k + 1, by omega, ?_, ?_⟩
      · rw [h1, hev, List.append_assoc]
        congr 1
        rw [range_flatMap_succ (fun t => schedOptBlock C.dls.train.length (e + t)) k]
        have harg : (fun t => schedOptBlock C.dls.train.length (e + (t + 1)))
            = (fun t => schedOptBlock C.dls.train.length (e + 1 + t)) := by
          funext t
          congr 1
          omega
        rw [harg]
        simp
      · rw [h2, hlen]
        omega

/-- C6: when a scheduler is supplied, `train_val` steps it exactly once per
training batch and immediately before that batch's optimizer step, with
argument `epoch + i/num_iter` for the zero-based batch index `i` and
`num_iter` the number of training batches: the whole trace of step calls is
one `schedOptBlock` per executed epoch, and within an epoch the
scheduler-step arguments are strictly increasing in the batch index. -/
theorem claim_C6_scheduler_trace {V OS SS : Type} (C : Ctx V OS SS)
    (theta0 : MLPState) (os0 : OS) (nepochs : ℕ)
    (output_path : Option String) (ss0 : SS)
    (L1lambda L2lambda : ℚ) (L1norm L2norm : Bool) (r : TVResult OS SS)
    (hok : train_val C theta0 os0 nepochs output_path (some ss0) L1lambda L2lambda L1norm L2norm
           = Except.ok r) :
    r.events = (List.range r.train_losses.length).flatMap
        (fun ep => schedOptBlock C.dls.train.length ep) ∧
      (∀ ep i j : ℕ, i < j → j < C.dls.train.length →
        (ep : ℚ) + (i : ℚ) / (C.dls.train.length : ℚ) <
          (ep : ℚ) + (j : ℚ) / (C.dls.train.length : ℚ)) := by
  constructor
  · have hr := train_val_ok_eq C theta0 os0 nepochs output_path (some ss0) L1lambda L2lambda
      L1norm L2norm r hok
    subst hr
    obtain ⟨k, _, h1, h2⟩ := runEpochs_evs C L1norm L2norm L1lambda L2lambda output_path
      nepochs 0
      { theta := theta0, os := os0, sched := some ss0,
        best_model_wts := theta0, best_val_loss := 1000000,
        train_losses := [], valid_losses := [],
        es := { patience := 10, best := none, counter := 0, early_stop := false },
        events := [], stopped := false } rfl
    rw [trainValBody]
    rw [h1, h2]
    simp
  · intro ep i j hij hj
    have hn : (0 : ℚ) < (C.dls.train.length : ℚ) := by
      have : 0 < C.dls.train.length := Nat.lt_of_le_of_lt (Nat.zero_le j) hj
      exact_mod_cast this
    have hq : (i : ℚ) < (j : ℚ) := by exact_mod_cast hij
    gcongr

/-- Concrete dataloaders with two training batches. -/
def Wdls2 : DLs ℚ :=
  { train := [ { data := 0, target := 1, size := 1 }, { data := 0, target := 1, size := 1 } ],
    valid := [ { data := 0, target := 1, size := 1 } ],
    test := [] }

/-- A context with two training batches, used with a scheduler. -/
def WctxSched : Ctx ℚ Unit Unit :=
  { ops := WopsId, criterion := fun _ _ => 5, dls := Wdls2,
    sizes := { train := 2, valid := 1, test := 1 },
    dirExists := fun _ => true }

/-- Witness for C6 at a concrete one-epoch run with two training batches
and a scheduler. -/
theorem claim_C6_witness :
    ∃ r, train_val WctxSched Wth () 1 none (some ()) 1 1 false false = Except.ok r ∧
      r.events = (List.range r.train_losses.length).flatMap
        (fun ep => schedOptBlock WctxSched.dls.train.length ep) := by
  refine ⟨_, rfl, ?_⟩
  exact (claim_C6_scheduler_trace WctxSched Wth () 1 none () 1 1 false false _ rfl).1

lemma argminIdx_lt : ∀ (l : List ℚ), l ≠ [] → argminIdx l < l.length := by
  intro l
  induction l with
  | nil => intro h; exact absurd rfl h
  | cons x xs ih =>
    intro _
    cases xs with
    | nil => simp [argminIdx]
    | cons y rest =>
      simp only [argminIdx]
      split
      · simp
      · have := ih (by simp)
        simp only [List.length_cons] at this ⊢
        omega

lemma argminIdx_min : ∀ (l : List ℚ) (j : ℕ), j < l.length →
    l.getD (argminIdx l) 0 ≤ l.getD j 0 := by
  intro l
  induction l with
  | nil => intro j hj; simp at hj
  | cons x xs ih =>
    intro j hj
    cases xs with
    | nil =>
      have hj0 : j = 0 := by simp at hj; omega
      subst hj0
      simp [argminIdx]
    | cons y rest =>
      simp only [argminIdx]
      split
      · rename_i hle
        cases j with
        | zero => simp
        | succ j' =>
          have hj' : j' < (y :: rest).length := by
            simp only [List.length_cons] at hj ⊢
            omega
          have := ih j' hj'
          calc (x :: y :: rest).getD 0 0 = x := rfl
            _ ≤ (y :: rest).getD (argminIdx (y :: rest)) 0 := hle
            _ ≤ (y :: rest).getD j' 0 := this
            _ = (x :: y :: rest).getD (j' + 1) 0 := rfl
      · rename_i hgt
        cases j with
        | zero =>
          calc (x :: y :: rest).getD (argminIdx (y :: rest) + 1) 0
              = (y :: rest).getD (argminIdx (y :: rest)) 0 := rfl
            _ ≤ x := le_of_not_le hgt
            _ = (x :: y :: rest).getD 0 0 := rfl
        | succ j' =>
          have hj' : j' < (y :: rest).length := by
            simp only [List.length_cons] at hj ⊢
            omega
          exact ih j' hj'

lemma l1_lambdas_eq (tenPow : ℚ → ℚ) :
    l1_lambdas tenPow =
      [tenPow (-6), tenPow (-16/3), tenPow (-14/3), tenPow (-4), tenPow (-10/3),
        tenPow (-8/3), tenPow (-2), tenPow (-4/3), tenPow (-2/3), tenPow 0] := by
  unfold l1_lambdas linspaceQ
  norm_num [List.range_succ]

lemma tuneL1Go_ok {V OS SS : Type} (C : Ctx V OS SS) (resetW : MLPState → MLPState)
    (nepochs : ℕ) :
    ∀ (l : List ℚ) (theta : MLPState) (os : OS) (acc : List ℚ),
      ∃ ls θf osf, tuneL1Go C resetW nepochs l theta os acc
          = Except.ok (acc ++ ls, θf, osf) ∧ ls.length = l.length := by
  intro l
  induction l with
  | nil => intro theta os acc; exact ⟨[], theta, os, by simp [tuneL1Go], rfl⟩
  | cons lam rest ih =>
    intro theta os acc
    obtain ⟨ls, θf, osf, hgo, hlen⟩ := ih
      (trainValBody C (resetW theta) os nepochs none none lam (1/1000000) true false).modelSt
      (trainValBody C (resetW theta) os nepochs none none lam (1/1000000) true false).opt
      (acc ++ [(trainValBody C (resetW theta) os nepochs none none lam (1/1000000) true false).best_val_loss])
    refine ⟨(trainValBody C (resetW theta) os nepochs none none lam (1/1000000) true false).best_val_loss :: ls,
      θf, osf, ?_, by simpa using hlen⟩
    show tuneL1Go C resetW nepochs rest
        (trainValBody C (resetW theta) os nepochs none none lam (1/1000000) true false).modelSt
        (trainValBody C (resetW theta) os nepochs none none lam (1/1000000) true false).opt
        (acc ++ [(trainValBody C (resetW theta) os nepochs none none lam (1/1000000) true false).best_val_loss])
        = Except.ok (acc ++
          (trainValBody C (resetW theta) os nepochs none none lam (1/1000000) true false).best_val_loss :: ls,
          θf, osf)
    rw [hgo]
    simp

lemma tuneL1Go_append {V OS SS : Type} (C : Ctx V OS SS) (resetW : MLPState → MLPState)
    (nepochs : ℕ) :
    ∀ (xs ys : List ℚ) (theta : MLPState) (os : OS) (acc : List ℚ),
      ∃ a θ9 os9, tuneL1Go C resetW nepochs xs theta os acc = Except.ok (a, θ9, os9) ∧
        tuneL1Go C resetW nepochs (xs ++ ys) theta os acc
          = tuneL1Go C resetW nepochs ys θ9 os9 a := by
  intro xs
  induction xs with
  | nil => intro ys theta os acc; exact ⟨acc, theta, os, rfl, rfl⟩
  | cons lam rest ih =>
    intro ys theta os acc
    obtain ⟨a, θ9, os9, h1, h2⟩ := ih ys
      (trainValBody C (resetW theta) os nepochs none none lam (1/1000000) true false).modelSt
      (trainValBody C (resetW theta) os nepochs none none lam (1/1000000) true false).opt
      (acc ++ [(trainValBody C (resetW theta) os nepochs none none lam (1/1000000) true false).best_val_loss])
    exact ⟨a, θ9, os9, h1, h2⟩

lemma tuneMSGo_ok {V OS SS : Type} (C : Ctx V OS SS) (mkModel : List ℕ → MLPState)
    (mkOpt : MLPState → OS) (nepochs : ℕ) :
    ∀ (l : List (List ℕ)) (acc : List ℚ),
      ∃ ls, tuneMSGo C mkModel mkOpt nepochs l acc = Except.ok (acc ++ ls) ∧
        ls.length = l.length := by
  intro l
  induction l with
  | nil => intro acc; exact ⟨[], by simp [tuneMSGo], rfl⟩
  | cons st rest ih =>
    intro acc
    obtain ⟨ls, hgo, hlen⟩ := ih
      (acc ++ [(trainValBody C (mkModel st) (mkOpt (mkModel st)) nepochs none none
        (1/1000) (1/1000000) false false).best_val_loss])
    refine ⟨(trainValBody C (mkModel st) (mkOpt (mkModel st)) nepochs none none
        (1/1000) (1/1000000) false false).best_val_loss :: ls, ?_, by simpa using hlen⟩
    show tuneMSGo C mkModel mkOpt nepochs rest
        (acc ++ [(trainValBody C (mkModel st) (mkOpt (mkModel st)) nepochs none none
          (1/1000) (1/1000000) false false).best_val_loss])
        = Except.ok (acc ++
          (trainValBody C (mkModel st) (mkOpt (mkModel st)) nepochs none none
            (1/1000) (1/1000000) false false).best_val_loss :: ls)
    rw [hgo]
    simp

/-- C7: for `nepochs ≥ 10` both tuners fail fatally with the assertion
message before running any trial (the error is produced by the guard, ahead
of the trial loop); for `nepochs < 10` the guard does not fire and each
tuner runs its trials to completion (for the structure tuner, on a
non-empty candidate list, matching `np.argmin` being applied to a non-empty
trial record). -/
theorem claim_C7_nepochs_guard {V OS SS : Type} (C : Ctx V OS SS)
    (theta0 : MLPState) (os0 : OS) (nepochs : ℕ)
    (tenPow : ℚ → ℚ) (resetW : MLPState → MLPState)
    (mkModel : List ℕ → MLPState) (mkOpt : MLPState → OS)
    (structures : List (List ℕ)) :
    (10 ≤ nepochs →
      tune_L1 C theta0 os0 nepochs tenPow resetW
          = Except.error "max nepochs for hyper parameter tunning: 10" ∧
        tune_model_structure C mkModel mkOpt nepochs structures
          = Except.error "max nepochs for hyper parameter tunning: 10") ∧
      (nepochs < 10 →
        (∃ x, tune_L1 C theta0 os0 nepochs tenPow resetW = Except.ok x) ∧
        (structures ≠ [] →
          ∃ y, tune_model_structure C mkModel mkOpt nepochs structures
            = Except.ok y)) := by
  constructor
  · intro h
    constructor
    · simp only [tune_L1]
      rw [if_pos h]
    · simp only [tune_model_structure]
      rw [if_pos h]
  · intro h
    constructor
    · obtain ⟨ls, θf, osf, hgo, _⟩ :=
        tuneL1Go_ok C resetW nepochs (l1_lambdas tenPow) theta0 os0 []
      refine ⟨((l1_lambdas tenPow).getD (argminIdx ls) 0, θf, osf), ?_⟩
      simp only [tune_L1]
      rw [if_neg (Nat.not_le.mpr h), hgo]
      rfl
    · intro _
      obtain ⟨ls, hgo, _⟩ := tuneMSGo_ok C mkModel mkOpt nepochs structures []
      refine ⟨structures.getD (argminIdx ls) [], ?_⟩
      simp only [tune_model_structure]
      rw [if_neg (Nat.not_le.mpr h), hgo]
      rfl

/-- The floating `10 ** e` map at the exponents the sweep uses, fixed at
the two endpoints. -/
def WtenPow : ℚ → ℚ :=
  fun e => if e = 0 then 1 else if e = -6 then 1 / 1000000 else 2

/-- A trivial model constructor standing in for `DNN(*structure)`. -/
def WmkModel : List ℕ → MLPState := fun _ => Wth

/-- A trivial optimizer constructor standing in for `AdamW(...)`. -/
def WmkOpt : MLPState → Unit := fun _ => ()

/-- Witness for C7: the guard fires at `nepochs = 12` and does not fire at
`nepochs = 1`. -/
theorem claim_C7_witness :
    ((10 : ℕ) ≤ 12 ∧
      tune_L1 WctxFive Wth () 12 WtenPow id
        = Except.error "max nepochs for hyper parameter tunning: 10") ∧
      ((1 : ℕ) < 10 ∧ ∃ x, tune_L1 WctxFive Wth () 1 WtenPow id = Except.ok x) := by
  constructor
  · exact ⟨by norm_num,
      ((claim_C7_nepochs_guard WctxFive Wth () 12 WtenPow id WmkModel WmkOpt
        [[3, 20, 18, 1]]).1 (by norm_num)).1⟩
  · exact ⟨by norm_num,
      ((claim_C7_nepochs_guard WctxFive Wth () 1 WtenPow id WmkModel WmkOpt
        [[3, 20, 18, 1]]).2 (by norm_num)).1⟩

/-- C5: `tune_L1` sweeps exactly `np.logspace(-6, 0, 10)` — the ten
strengths `10 ** e` for exponents `e` linearly spaced from `-6` to `0`
inclusive, so from `1e-6` to `1` — resetting the model weights before each
trial while threading the one shared optimizer state through all trials
(visible in the recursion of `tuneL1Go`), and returns the strength at
`np.argmin` of the recorded best validation losses, which attains the
minimum of the recorded losses; `tune_model_structure` builds a fresh model
and optimizer per candidate (visible in `tuneMSGo`) and returns the
structure at `np.argmin` of its recorded losses, likewise attaining their
minimum. -/
theorem claim_C5_tuner_argmin {V OS SS : Type} (C : Ctx V OS SS)
    (theta0 : MLPState) (os0 : OS) (nepochs : ℕ)
    (tenPow : ℚ → ℚ) (resetW : MLPState → MLPState)
    (mkModel : List ℕ → MLPState) (mkOpt : MLPState → OS)
    (structures : List (List ℕ))
    (h9 : nepochs < 10) (hne : structures ≠ [])
    (h6 : tenPow (-6) = 1 / 1000000) (h0 : tenPow 0 = 1) :
    (l1_lambdas tenPow
        = [tenPow (-6), tenPow (-16/3), tenPow (-14/3), tenPow (-4), tenPow (-10/3),
           tenPow (-8/3), tenPow (-2), tenPow (-4/3), tenPow (-2/3), tenPow 0] ∧
      (l1_lambdas tenPow).length = 10 ∧
      (l1_lambdas tenPow).head? = some (1 / 1000000) ∧
      (l1_lambdas tenPow).getLast? = some 1) ∧
    (∃ losses θf osf,
      tuneL1Go C resetW nepochs (l1_lambdas tenPow) theta0 os0 []
          = Except.ok (losses, θf, osf) ∧
        losses.length = 10 ∧
        tune_L1 C theta0 os0 nepochs tenPow resetW
          = Except.ok ((l1_lambdas tenPow).getD (argminIdx losses) 0, θf, osf) ∧
        argminIdx losses < losses.length ∧
        (∀ j, j < losses.length → losses.getD (argminIdx losses) 0 ≤ losses.getD j 0)) ∧
    (∃ losses2,
      tuneMSGo C mkModel mkOpt nepochs structures [] = Except.ok losses2 ∧
        losses2.length = structures.length ∧
        tune_model_structure C mkModel mkOpt nepochs structures
          = Except.ok (structures.getD (argminIdx losses2) []) ∧
        argminIdx losses2 < losses2.length ∧
        (∀ j, j < losses2.length → losses2.getD (argminIdx losses2) 0 ≤ losses2.getD j 0)) := by
  refine ⟨⟨l1_lambdas_eq tenPow, ?_, ?_, ?_⟩, ?_, ?_⟩
  · rw [l1_lambdas_eq]; rfl
  · rw [l1_lambdas_eq]; simp [h6]
  · rw [l1_lambdas_eq]; simp [h0]
  · obtain ⟨ls, θf, osf, hgo, hlen⟩ :=
      tuneL1Go_ok C resetW nepochs (l1_lambdas tenPow) theta0 os0 []
    simp only [List.nil_append] at hgo
    have hlen10 : ls.length = 10 := by
      rw [hlen, l1_lambdas_eq]; rfl
    have hlsne : ls ≠ [] := by
      intro hcon
      rw [hcon] at hlen10
      simp at hlen10
    refine ⟨ls, θf, osf, hgo, hlen10, ?_, ?_, ?_⟩
    · simp only [tune_L1]
      rw [if_neg (Nat.not_le.mpr h9), hgo]
    · exact argminIdx_lt ls hlsne
    · intro j hj
      exact argminIdx_min ls j hj
  · obtain ⟨ls, hgo, hlen⟩ := tuneMSGo_ok C mkModel mkOpt nepochs structures []
    simp only [List.nil_append] at hgo
    have hlsne : ls ≠ [] := by
      intro hcon
      rw [hcon] at hlen
      exact hne (List.eq_nil_of_length_eq_zero hlen.symm)
    refine ⟨ls, hgo, hlen, ?_, ?_, ?_⟩
    · simp only [tune_model_structure]
      rw [if_neg (Nat.not_le.mpr h9), hgo]
    · exact argminIdx_lt ls hlsne
    · intro j hj
      exact argminIdx_min ls j hj

/-- Witness for C5 at a concrete one-epoch tuning run. -/
theorem claim_C5_witness :
    ((1 : ℕ) < 10) ∧ (([[3, 20, 18, 1]] : List (List ℕ)) ≠ []) ∧
      WtenPow (-6) = 1 / 1000000 ∧ WtenPow 0 = 1 ∧
      (∃ x, tune_L1 WctxFive Wth () 1 WtenPow id = Except.ok x) ∧
      (∃ y, tune_model_structure WctxFive WmkModel WmkOpt 1 [[3, 20, 18, 1]] = Except.ok y) ∧
      (l1_lambdas WtenPow).head? = some (1 / 1000000) := by
  have h := claim_C5_tuner_argmin WctxFive Wth () 1 WtenPow id WmkModel WmkOpt
    [[3, 20, 18, 1]] (by norm_num) (by simp) (by norm_num [WtenPow]) (by norm_num [WtenPow])
  refine ⟨by norm_num, by simp, by norm_num [WtenPow], by norm_num [WtenPow], ?_, ?_,
    h.1.2.2.1⟩
  · obtain ⟨losses, θf, osf, _, _, htune, _, _⟩ := h.2.1
    exact ⟨_, htune⟩
  · obtain ⟨l2, _, _, htune2, _, _⟩ := h.2.2
    exact ⟨_, htune2⟩

/-- C10: after `tune_L1` returns, the model state it hands back is exactly
the state produced by the tenth and final trial — the one run at L1
strength `tenPow 0 = 1` — applied (after a weight reset) to the state left
by the first nine trials, and the returned optimizer state is the one
threaded through all ten trials; nothing restores the weights of the trial
that achieved the selected minimal best validation loss, since the returned
state does not depend on the argmin selection. -/
theorem claim_C10_l1_tuner_state {V OS SS : Type} (C : Ctx V OS SS)
    (theta0 : MLPState) (os0 : OS) (nepochs : ℕ)
    (tenPow : ℚ → ℚ) (resetW : MLPState → MLPState)
    (lam : ℚ) (θf : MLPState) (osf : OS)
    (h0 : tenPow 0 = 1)
    (hok : tune_L1 C theta0 os0 nepochs tenPow resetW
      = Except.ok (lam, θf, osf)) :
    ∃ acc θ9 os9 r10,
      tuneL1Go C resetW nepochs ((l1_lambdas tenPow).take 9) theta0 os0 []
          = Except.ok (acc, θ9, os9) ∧
        train_val C (resetW θ9) os9 nepochs none none 1 (1/1000000) true false
          = Except.ok r10 ∧
        θf = r10.modelSt ∧ osf = r10.opt := by
  have h9 : ¬ 10 ≤ nepochs := by
    intro hc
    simp only [tune_L1] at hok
    rw [if_pos hc] at hok
    cases hok
  have hsplit : l1_lambdas tenPow = (l1_lambdas tenPow).take 9 ++ [(1 : ℚ)] := by
    rw [l1_lambdas_eq, h0]
    rfl
  obtain ⟨a, θ9, os9, hxs, happ⟩ := tuneL1Go_append C resetW nepochs
    ((l1_lambdas tenPow).take 9) [(1 : ℚ)] theta0 os0 []
  simp only [tune_L1] at hok
  rw [if_neg h9] at hok
  rw [hsplit, happ] at hok
  have hone : tuneL1Go C resetW nepochs [(1 : ℚ)] θ9 os9 a
      = Except.ok
          (a ++ [(trainValBody C (resetW θ9) os9 nepochs none none 1 (1/1000000)
              true false).best_val_loss],
            (trainValBody C (resetW θ9) os9 nepochs none none 1 (1/1000000) true false).modelSt,
            (trainValBody C (resetW θ9) os9 nepochs none none 1 (1/1000000) true false).opt)
      := rfl
  rw [hone] at hok
  have h3 := Except.ok.inj hok
  refine ⟨a, θ9, os9,
    trainValBody C (resetW θ9) os9 nepochs none none 1 (1/1000000) true false,
    hxs, rfl, ?_, ?_⟩
  · exact (congrArg (fun t => t.2.1) h3).symm
  · exact (congrArg (fun t => t.2.2) h3).symm

/-- Witness for C10 at a concrete ten-trial tuning run. -/
theorem claim_C10_witness :
    WtenPow 0 = 1 ∧
      ∃ lam θf osf, tune_L1 WctxFive Wth () 1 WtenPow id = Except.ok (lam, θf, osf) ∧
        ∃ acc θ9 os9 r10,
          tuneL1Go WctxFive id 1 ((l1_lambdas WtenPow).take 9) Wth () []
              = Except.ok (acc, θ9, os9) ∧
            train_val WctxFive (id θ9) os9 1 none none 1 (1/1000000) true false
              = Except.ok r10 ∧
            θf = r10.modelSt ∧ osf = r10.opt := by
  refine ⟨by norm_num [WtenPow], ?_⟩
  refine ⟨_, _, _, rfl, ?_⟩
  exact claim_C10_l1_tuner_state WctxFive Wth () 1 WtenPow id _ _ _
    (by norm_num [WtenPow]) rfl
